import Mathlib

/-!
Verification of the mybot process-driven session engine (Go) against its
natural-language specification.  The Go sources are shallowly embedded:

* Go strings are Lean `String`s; the `strings` stdlib helpers used by the code
  (`TrimSpace`, `HasPrefix`, `HasSuffix`, `Split`, `Contains`, `ToLower`) are
  re-implemented below with Go semantics.
* Go maps (`map[string]string`, `map[string]*chatMemory`, `map[string]bool`)
  are association lists with first-occurrence lookup; every mutation the code
  performs is mirrored by a deterministic list operation.
* Machine integers (`int` token/turn counters) are `Int`; the code never
  relies on wraparound.
* File-system persistence (`state.json` / `memory.json`, written with
  temp-file-then-rename) is modelled by `persistedThreads` / `persistedMem`
  snapshot fields updated exactly where the code calls
  `saveStateLocked` / `saveMemoryLocked`, and by a JSON document model for the
  marshal/unmarshal round trip.
* Subprocess invocations are oracles: `sendExec` takes the child's behaviour
  (its stdout JSONL lines, stderr lines and exit status) as a parameter.
* Timestamps (`time.Now()`) are opaque values threaded in as parameters.
-/

namespace MyBot

/-- Go `unicode.IsSpace`: the White_Space code points recognised by the Go
`unicode` tables ('\t', '\n', '\v', '\f', '\r', ' ', NEL, NBSP, OGHAM SPACE,
the U+2000 block, LS, PS, NNBSP, MMSP, IDEOGRAPHIC SPACE). -/
def goIsSpace (c : Char) : Bool :=
  let n := c.toNat
  n == 9 || n == 10 || n == 11 || n == 12 || n == 13 || n == 32 ||
  n == 0x85 || n == 0xA0 || n == 0x1680 ||
  (0x2000 ≤ n && n ≤ 0x200A) ||
  n == 0x2028 || n == 0x2029 || n == 0x202F || n == 0x205F || n == 0x3000

/-- Go `strings.TrimSpace`: drop leading and trailing space runes. -/
def goTrimSpace (s : String) : String :=
  String.mk (((s.toList.dropWhile goIsSpace).reverse.dropWhile goIsSpace).reverse)

/-- Go `strings.HasPrefix`. -/
def goStartsWith (s p : String) : Bool :=
  p.toList.isPrefixOf s.toList

/-- Go `strings.HasSuffix`. -/
def goEndsWith (s p : String) : Bool :=
  p.toList.isSuffixOf s.toList

/-- Go `strings.TrimPrefix`. -/
def goDropPre (s p : String) : String :=
  if goStartsWith s p then String.mk (s.toList.drop p.toList.length) else s

/-- Splitting a character list at every occurrence of `sep`
(Go `strings.Split` with a one-character separator); the result is never
empty and empty fields between consecutive separators are kept. -/
def splitList (sep : Char) : List Char → List (List Char)
  | [] => [[]]
  | c :: cs =>
    match splitList sep cs with
    | [] => [[]]
    | g :: gs => if c = sep then [] :: g :: gs else (c :: g) :: gs

/-- Go `strings.Split(s, sep)` for a one-character separator. -/
def goSplitChar (sep : Char) (s : String) : List String :=
  (splitList sep s.toList).map String.mk

/-- Index of the first occurrence of `pat` as a contiguous sublist
(Go `bytes.Index` / the search underlying `strings.Contains`);
`none` when absent. -/
def subIndex {α : Type} [DecidableEq α] (pat : List α) : List α → Option Nat
  | [] => if pat.isEmpty then some 0 else none
  | b :: bs =>
    if pat.isPrefixOf (b :: bs) then some 0
    else (subIndex pat bs).map (· + 1)

/-- Go `strings.Contains`. -/
def strContains (s sub : String) : Bool :=
  (subIndex sub.toList s.toList).isSome

/-- Go `strings.ToLower` (sufficient for the ASCII patterns the code matches). -/
def goToLower (s : String) : String :=
  String.mk (s.toList.map Char.toLower)

/-- Event model (`core.Event`): kind plus payload text.  Timestamps and the
exit code are irrelevant to every claim and are omitted. -/
inductive EventType where
  | stdout
  | stderr
  | status
  | exit
deriving DecidableEq

/-- A single event flowing from a process handle to the consumer. -/
structure Event where
  type : EventType
  text : String
deriving DecidableEq

/-- Capacity of the per-handle event buffer (`make(chan core.Event, 256)`). -/
def eventCap : Nat := 256

/-- First-occurrence lookup in an association list (Go map read). -/
def alookup {α : Type} : List (String × α) → String → Option α
  | [], _ => none
  | (k, v) :: rest, key => if k = key then some v else alookup rest key

/-- Go map write `m[k] = v`: replace the binding if the key is present,
append it otherwise. -/
def aset {α : Type} : List (String × α) → String → α → List (String × α)
  | [], key, v => [(key, v)]
  | (k, w) :: rest, key, v =>
    if k = key then (key, v) :: rest else (k, w) :: aset rest key v

/-- Go map delete `delete(m, k)`: remove the first binding for the key. -/
def aerase {α : Type} : List (String × α) → String → List (String × α)
  | [], _ => []
  | (k, w) :: rest, key =>
    if k = key then rest else (k, w) :: aerase rest key

/-- Per-conversation durable memory (`chatMemory` in the memory engine).
`time.Time` fields are modelled by their serialized representations
(opaque strings). -/
structure ChatMemory where
  summary : String := ""
  rules : List String := []
  prefs : List String := []
  updatedAt : String := ""
  compactedAt : String := ""
  tokensSinceCompact : Int := 0
  turnsSinceCompact : Int := 0
  skillIdeas : List String := []
deriving DecidableEq

/-- Mutable adapter state: the in-memory thread map (`Adapter.threads`), the
in-memory chat-memory map (`Adapter.mem`), the per-conversation
compaction-in-progress flags (`Adapter.compacting`, a set of chat keys), and
the current on-disk snapshots written by `saveStateLocked` /
`saveMemoryLocked`. -/
structure AdapterState where
  threads : List (String × String) := []
  persistedThreads : List (String × String) := []
  mem : List (String × ChatMemory) := []
  persistedMem : List (String × ChatMemory) := []
  compacting : List String := []
deriving DecidableEq

/-- `Adapter.saveStateLocked`: write the current thread map to disk. -/
def saveStateLocked (a : AdapterState) : AdapterState :=
  { a with persistedThreads := a.threads }

/-- `Adapter.saveMemoryLocked`: write the current memory map to disk. -/
def saveMemoryLocked (a : AdapterState) : AdapterState :=
  { a with persistedMem := a.mem }

/-- `Adapter.getThread`: map read with Go's zero-value semantics
(missing key reads as the empty string). -/
def getThread (a : AdapterState) (chatKey : String) : String :=
  if chatKey = "" then "" else (alookup a.threads chatKey).getD ""

/-- `Adapter.setThread`: store and persist a continuation identifier,
skipping the write when the identifier is already current. -/
def setThread (a : AdapterState) (chatKey threadID : String) : AdapterState :=
  if chatKey = "" ∨ threadID = "" then a
  else if (alookup a.threads chatKey).getD "" = threadID then a
  else saveStateLocked { a with threads := aset a.threads chatKey threadID }

/-- `Adapter.clearThread`: drop and persist; a no-op when the key is absent. -/
def clearThread (a : AdapterState) (chatKey : String) : AdapterState :=
  if chatKey = "" then a
  else
    match alookup a.threads chatKey with
    | none => a
    | some _ => saveStateLocked { a with threads := aerase a.threads chatKey }

/-- Modelled from the spec: `dropThread`, called by `compactChat` after a
successful compaction, is declared in a codex source file absent from src/
("After a successful compaction, the persisted continuation identifier for
the conversation is cleared"); `clearThread` in src/ implements exactly this
clearing, so `dropThread` is modelled as that operation. -/
def dropThread (a : AdapterState) (chatKey : String) : AdapterState :=
  clearThread a chatKey

/-- Structured (exec/JSON-lines) process handle (`handleExec`).  The bounded
event channel is the `events` list (capacity `eventCap`); the per-session
transcript file is the `transcript` list of appended strings. -/
structure HandleExec where
  sessionID : String := ""
  chatKey : String := ""
  threadID : String := ""
  globalArgs : List String := []
  skipGitRepoCheck : Bool := false
  events : List Event := []
  transcript : List String := []
deriving DecidableEq

/-- `handleExec.emit`: non-blocking send on the bounded event channel —
append when there is room, silently drop on overflow. -/
def emitExec (h : HandleExec) (t : EventType) (text : String) : HandleExec :=
  if h.events.length < eventCap then
    { h with events := h.events ++ [{ type := t, text := text }] }
  else h

/-- `handleExec.appendTranscript` (file append, best-effort). -/
def appendTranscript (h : HandleExec) (s : String) : HandleExec :=
  { h with transcript := h.transcript ++ [s] }

/-- `codexItem`: the nested item of an `item.completed` record. -/
structure CodexItem where
  type : String := ""
  text : String := ""
deriving DecidableEq

/-- Modelled from the spec: the `codexUsage` token-count struct of a
`turn.completed` record is declared in a codex source file absent from src/;
the memory engine (part_001) reads its `InputTokens` and `OutputTokens`
fields, and the spec says the usage hook receives "token counts taken from
the record". -/
structure CodexUsage where
  inputTokens : Int := 0
  outputTokens : Int := 0
deriving DecidableEq

/-- `codexJSON`: one decoded stdout line.  Fields absent from the JSON text
decode to Go zero values, mirrored by the defaults. -/
structure CodexJSON where
  type : String := ""
  threadID : String := ""
  item : Option CodexItem := none
  usage : CodexUsage := {}
deriving DecidableEq

/-- One scanned stdout line after the `json.Unmarshal` attempt: either a
decoded record or a parse failure with its error text. -/
inductive JSONLine where
  | ok (j : CodexJSON)
  | bad (msg : String)
deriving DecidableEq

/-- Appending the trailing newline when missing
(`if !strings.HasSuffix(txt, "\n") { txt += "\n" }`). -/
def ensureNewline (s : String) : String :=
  if goEndsWith s "\n" then s else s ++ "\n"

/-- `handleExec.readJSONL`, one line, as in the revision under src/:
`thread.started` adopts and persists the first non-empty identifier,
`item.completed` with a non-empty agent message emits it (newline ensured),
`turn.completed` and unrecognized types are ignored, and a line that fails
to parse yields a diagnostic event. -/
def readJSONLStep (st : HandleExec × AdapterState) (l : JSONLine) :
    HandleExec × AdapterState :=
  match l with
  | .bad msg => (emitExec st.1 .stderr ("bad json: " ++ msg ++ "\n"), st.2)
  | .ok ev =>
    let h := st.1
    let a := st.2
    if ev.type = "thread.started" then
      if ev.threadID = "" then (h, a)
      else if h.threadID = "" then
        let h2 := { h with threadID := ev.threadID }
        if h2.chatKey ≠ "" then
          (appendTranscript h2 ("[resume thread_id " ++ ev.threadID ++ "]\n"),
           setThread a h2.chatKey ev.threadID)
        else (h2, a)
      else (h, a)
    else if ev.type = "item.completed" then
      match ev.item with
      | some it =>
        if it.type = "agent_message" ∧ it.text ≠ "" then
          let txt := ensureNewline it.text
          (emitExec (appendTranscript h txt) .stdout txt, a)
        else (h, a)
      | none => (h, a)
    else (h, a)

/-- `handleExec.readJSONL` over a whole stdout stream. -/
def readJSONL (st : HandleExec × AdapterState) (ls : List JSONLine) :
    HandleExec × AdapterState :=
  ls.foldl readJSONLStep st

/-- `isNoisyCodexStderr`: the purely-cosmetic warning filter. -/
def isNoisyCodexStderr (line : String) : Bool :=
  let s := goToLower line
  strContains s "codex_core::rollout::list" && strContains s "missing rollout path"

/-- `handleExec.readStderr`, one line: noisy lines go to the transcript only,
all others are also surfaced as diagnostic events. -/
def readStderrStep (h : HandleExec) (line : String) : HandleExec :=
  let line := line ++ "\n"
  if isNoisyCodexStderr line then appendTranscript h ("[filtered stderr] " ++ line)
  else emitExec (appendTranscript h line) .stderr line

/-- Go `envInt(key, def)` after the string has been read and parsed: an unset
or unparseable variable is `none`, and any non-positive value falls back to
the default (`if err != nil || n <= 0 { return def }`). -/
def envIntModel (v : Option Int) (dflt : Int) : Int :=
  match v with
  | none => dflt
  | some n => if n ≤ 0 then dflt else n

/-- `Adapter.memoryTokenThreshold`: `envInt("MEMORY_TOKEN_THRESHOLD", 60000)`. -/
def memoryTokenThreshold (env : Option Int) : Int :=
  envIntModel env 60000

/-- `Adapter.memoryTurnThreshold`: `envInt("MEMORY_TURN_THRESHOLD", 40)`. -/
def memoryTurnThreshold (env : Option Int) : Int :=
  envIntModel env 40

/-- Configuration of the memory engine: `memoryEnabled()` (env switch ∧ codex
binary ∧ exec mode) collapsed to one flag, and the two thresholds. -/
structure MemCfg where
  enabled : Bool := true
  tokenThreshold : Int := 60000
  turnThreshold : Int := 40
deriving DecidableEq

/-- `Adapter.getMem`: the chat's memory record, a fresh zero record when none
is stored yet (Go inserts the fresh record; every caller immediately writes
the key back, so the net state is identical). -/
def getMem (a : AdapterState) (chatKey : String) : ChatMemory :=
  (alookup a.mem chatKey).getD {}

/-- `Adapter.onTurnCompleted` (memory engine, src/unnamed/part_001): increment
the per-conversation counters by the turn's reported usage, persist
immediately, and start a detached compaction task exactly when a threshold is
reached, the thread is known, and no compaction for this chat is already in
flight.  The returned flag is whether the compaction goroutine was spawned;
its body (`compactChat` plus the deferred flag reset) runs asynchronously and
is modelled separately. -/
def onTurnCompleted (cfg : MemCfg) (a : AdapterState) (chatKey threadID : String)
    (usage : CodexUsage) (now : String) : AdapterState × Bool :=
  if ¬cfg.enabled ∨ chatKey = "" then (a, false)
  else
    let m := getMem a chatKey
    let m := { m with
      turnsSinceCompact := m.turnsSinceCompact + 1,
      tokensSinceCompact := m.tokensSinceCompact + usage.inputTokens + usage.outputTokens,
      updatedAt := now }
    let need : Prop :=
      cfg.tokenThreshold ≤ m.tokensSinceCompact ∨ cfg.turnThreshold ≤ m.turnsSinceCompact
    let a := saveMemoryLocked { a with mem := aset a.mem chatKey m }
    if ¬need ∨ threadID = "" then (a, false)
    else if chatKey ∈ a.compacting then (a, false)
    else ({ a with compacting := chatKey :: a.compacting }, true)

/-- The deferred reset of the per-chat compaction flag at the end of the
compaction goroutine. -/
def endCompacting (a : AdapterState) (chatKey : String) : AdapterState :=
  { a with compacting := a.compacting.filter (fun k => k ≠ chatKey) }

/-- `mergeUnique`'s loop body: trim, skip empties, skip already-seen strings,
otherwise record as seen and append to the output. -/
def mergePush (st : List String × List String) (s : String) :
    List String × List String :=
  let s := goTrimSpace s
  if s = "" then st
  else if s ∈ st.1 then st
  else (s :: st.1, st.2 ++ [s])

/-- `mergeUnique` (memory engine): push every base element then every added
element through the seen-filter, then truncate to the cap
(`if limit > 0 && len(out) > limit`). -/
def mergeUnique (base add : List String) (limit : Nat) : List String :=
  let out := ((base ++ add).foldl mergePush ([], [])).2
  if 0 < limit ∧ limit < out.length then out.take limit else out

/-- `trimList`'s collection loop: keep the trimmed non-empty entries in order. -/
def trimFilter : List String → List String
  | [] => []
  | s :: rest =>
    let t := goTrimSpace s
    if t = "" then trimFilter rest else t :: trimFilter rest

/-- `trimList` (memory engine): trimmed non-empty entries, truncated to the cap. -/
def trimList (l : List String) (limit : Nat) : List String :=
  let out := trimFilter l
  if 0 < limit ∧ limit < out.length then out.take limit else out

/-- `extractJSON`: the substring between the first opening and the last
closing brace of the trimmed reply, or the trimmed reply itself. -/
def extractJSON (s : String) : String :=
  let s := goTrimSpace s
  if s = "" then s
  else
    let cs := s.toList
    match subIndex [Char.ofNat 123] cs, subIndex [Char.ofNat 125] cs.reverse with
    | some i, some jr =>
      let j := cs.length - 1 - jr
      if i < j then String.mk ((cs.drop i).take (j + 1 - i)) else s
    | _, _ => s

/-- `compactResult`: the strict-JSON reply schema requested from the agent. -/
structure CompactResult where
  summary : String := ""
  rules : List String := []
  prefs : List String := []
  skillIdeas : List String := []
deriving DecidableEq

/-- Outcome of one subprocess call, supplied as an oracle. -/
inductive CallResult where
  | ok (text : String)
  | err (msg : String)
deriving DecidableEq

/-- `Adapter.runCodexResumeJSON`: rejects an empty continuation identifier up
front, otherwise the result is the subprocess's (oracle-supplied) outcome —
the last agent-message text on success, an error when the run failed. -/
def runCodexResumeJSON (threadID : String) (call : CallResult) : CallResult :=
  if threadID = "" then .err "empty threadID" else call

/-- The wholesale replacement `compactChat` applies to the chat's memory
record on success: rules/prefs merged with de-duplication under cap 20,
skill ideas replaced under cap 5, counters reset, timestamps updated. -/
def applyCompact (m : ChatMemory) (res : CompactResult) (now : String) : ChatMemory :=
  { m with
    summary := goTrimSpace res.summary,
    rules := mergeUnique m.rules res.rules 20,
    prefs := mergeUnique m.prefs res.prefs 20,
    skillIdeas := trimList res.skillIdeas 5,
    compactedAt := now,
    updatedAt := now,
    tokensSinceCompact := 0,
    turnsSinceCompact := 0 }

/-- `Adapter.compactChat`: one compaction attempt.  `call` abstracts the
subprocess run, `unmarshalCR` abstracts `json.Unmarshal` into a
`compactResult` (`none` = parse error; on parse error the code stores the
trimmed raw reply as the summary).  On any error the state is returned
untouched; on success the memory record is replaced via `applyCompact`,
persisted, and the continuation identifier is dropped. -/
def compactChat (a : AdapterState) (chatKey threadID : String)
    (call : CallResult) (unmarshalCR : String → Option CompactResult)
    (now : String) : AdapterState × Option String :=
  match runCodexResumeJSON threadID call with
  | .err e => (a, some ("compact run failed: " ++ e))
  | .ok text =>
    let res :=
      match unmarshalCR (extractJSON text) with
      | some r => r
      | none => { summary := goTrimSpace text }
    let m := applyCompact ((alookup a.mem chatKey).getD {}) res now
    let a := saveMemoryLocked { a with mem := aset a.mem chatKey m }
    (dropThread a chatKey, none)

/-- Modelled from the spec: the current repository revision of
`handleExec.readJSONL` (its source file is absent from src/; the copy under
src/ is an older revision whose `turn.completed` case is `// ignore` and
which references none of the memory engine's symbols) dispatches
`turn.completed` to the usage-accounting hook with the token counts taken
from the record ("`turn.completed`: ignored for immediate display but
triggers the usage-accounting hook (§4.3) with token counts taken from the
record").  All other cases are the ones under src/. -/
def readJSONLStepM (cfg : MemCfg) (now : String) (st : HandleExec × AdapterState)
    (l : JSONLine) : HandleExec × AdapterState :=
  match l with
  | .ok ev =>
    if ev.type = "turn.completed" then
      (st.1, (onTurnCompleted cfg st.2 st.1.chatKey st.1.threadID ev.usage now).1)
    else readJSONLStep st l
  | .bad msg => readJSONLStep st (.bad msg)

/-- `parseChatKey`: recover the chat key and the fresh flag from a session
identifier of the form `chat-<chatID>-<ts>[-fresh]`. -/
def parseChatKey (sessionID : String) : String × Bool :=
  let chatKey :=
    if goStartsWith sessionID "chat-" then
      match goSplitChar (Char.ofNat 45) (goDropPre sessionID "chat-") with
      | p0 :: _ :: _ => if p0 ≠ "" then p0 else ""
      | _ => ""
    else ""
  (chatKey, goEndsWith sessionID "-fresh")

/-- `SessionManager.NewFresh`'s session identifier:
`fmt.Sprintf("chat-%d-%d-fresh", chatID, time.Now().UnixNano())`. -/
def freshSessionID (chatID : Int) (ts : Nat) : String :=
  "chat-" ++ toString chatID ++ "-" ++ toString ts ++ "-fresh"

/-- Static adapter configuration used by the exec variant. -/
structure AdapterCfg where
  globalArgs : List String := []
  skipGitRepoCheck : Bool := false
deriving DecidableEq

/-- `Adapter.startExec`: spawn nothing; clear the persisted continuation
identifier when the session is fresh, then resolve whether a continuation
identifier is persisted (resume) or absent (fresh turn), emitting status
events.  (The Go status sends are unconditional channel sends; the buffer of
a brand-new handle has room, so they coincide with `emitExec`.) -/
def startExec (cfg : AdapterCfg) (a : AdapterState) (sessionID : String) :
    AdapterState × HandleExec :=
  let pk := parseChatKey sessionID
  let chatKey := pk.1
  let a := if pk.2 ∧ chatKey ≠ "" then clearThread a chatKey else a
  let h : HandleExec :=
    { sessionID := sessionID, chatKey := chatKey, threadID := "",
      globalArgs := cfg.globalArgs, skipGitRepoCheck := cfg.skipGitRepoCheck }
  let h :=
    if chatKey ≠ "" then
      let tid := getThread a chatKey
      if tid ≠ "" then
        emitExec { h with threadID := tid } .status ("resumed thread_id=" ++ tid ++ "\n")
      else h
    else h
  (a, emitExec h .status "started mode=exec\n")

/-- The argument vector built by `sendExec`: global flags, then `exec`
(`resume` when a continuation identifier is stored), `--json`, the optional
git-check skip, then `[SESSION_ID] PROMPT`. -/
def buildArgv (globalArgs : List String) (skipGit : Bool)
    (threadID prompt : String) : List String :=
  let argv := globalArgs ++ ["exec"]
  let argv := if threadID ≠ "" then argv ++ ["resume"] else argv
  let argv := argv ++ ["--json"]
  let argv := if skipGit then argv ++ ["--skip-git-repo-check"] else argv
  if threadID ≠ "" then argv ++ [threadID, prompt] else argv ++ [prompt]

/-- Behaviour of one spawned subprocess, supplied as an oracle: its stdout
JSONL lines, stderr lines, and whether `cmd.Wait` returned nil. -/
structure SpawnOutcome where
  stdoutLines : List JSONLine := []
  stderrLines : List String := []
  exitOk : Bool := true

/-- Result of one `sendExec` call: the new handle and adapter state, whether
an error was returned, and the invocation that was spawned (`none` when no
subprocess was started).  Stdout is processed before stderr; the two Go
readers run concurrently, but no claim depends on their interleaving. -/
def sendExec (h : HandleExec) (a : AdapterState) (input : String)
    (spawn : List String → SpawnOutcome) :
    HandleExec × AdapterState × Bool × Option (List String) :=
  let prompt := goTrimSpace input
  if prompt = "" then (h, a, false, none)
  else
    let argv := buildArgv h.globalArgs h.skipGitRepoCheck h.threadID prompt
    let out := spawn argv
    let h := appendTranscript h ("\n> " ++ prompt ++ "\n")
    let st := readJSONL (h, a) out.stdoutLines
    let h := out.stderrLines.foldl readStderrStep st.1
    (h, st.2, !out.exitOk, some argv)

/-- `dsrCursor`: the cursor-position query ESC `[6n`, as bytes. -/
def dsrCursor : List Nat := [27, 91, 54, 110]

/-- `dsrCursorQ`: the cursor-position query ESC `[?6n`, as bytes. -/
def dsrCursorQ : List Nat := [27, 91, 63, 54, 110]

/-- The canned cursor-position response ESC `[1;1R` (row 1, column 1)
written to the child's input for each stripped query. -/
def dsrReply : List Nat := [27, 91, 49, 59, 49, 82]

/-- One iteration of `handleTermQueries`'s loop: locate the earliest complete
query (preferring the plain form unless the `?` form occurs strictly
earlier, exactly as the Go index comparison does) and splice it out;
`none` when neither query occurs. -/
def stripStep (b : List Nat) : Option (List Nat) :=
  match subIndex dsrCursor b, subIndex dsrCursorQ b with
  | none, none => none
  | some i, none => some (b.take i ++ b.drop (i + 4))
  | none, some j => some (b.take j ++ b.drop (j + 5))
  | some i, some j =>
    if j < i then some (b.take j ++ b.drop (j + 5))
    else some (b.take i ++ b.drop (i + 4))

/-- `handle.handleTermQueries`'s loop, fuelled (each iteration removes at
least four bytes, so `b.length` fuel always suffices): returns the cleaned
bytes and the list of responses written to the child's input, one per
removed occurrence, in order. -/
def stripQueries : Nat → List Nat → List Nat × List (List Nat)
  | 0, b => (b, [])
  | fuel + 1, b =>
    match stripStep b with
    | none => (b, [])
    | some b2 =>
      let r := stripQueries fuel b2
      (r.1, dsrReply :: r.2)

/-- `handle.handleTermQueries` on one received chunk. -/
def handleTermQueries (b : List Nat) : List Nat × List (List Nat) :=
  stripQueries b.length b

/-- JSON documents, for the persistence model of `state.json` and
`memory.json`.  Go's `encoding/json` byte encoding (escaping, indentation,
temp-file-then-rename) is the stdlib boundary; the repo's own marshalling
layer is modelled on this document type.  Booleans never occur in either
file. -/
inductive Json where
  | null
  | str (s : String)
  | num (n : Int)
  | arr (xs : List Json)
  | obj (fields : List (String × Json))

/-- `json.Marshal` of a `map[string]string` (the `threads` map). -/
def encodeStrMap (m : List (String × String)) : Json :=
  .obj (m.map (fun p => (p.1, .str p.2)))

/-- `json.Marshal` of `stateFile{Threads: m}`. -/
def marshalState (m : List (String × String)) : Json :=
  .obj [("threads", encodeStrMap m)]

/-- `json.Unmarshal` into a `map[string]string`: entries are written into the
map left to right (a later duplicate key overwrites), and a non-string value
is a decode error. -/
def decodeStrMapFields (acc : List (String × String)) :
    List (String × Json) → Option (List (String × String))
  | [] => some acc
  | (k, .str s) :: rest => decodeStrMapFields (aset acc k s) rest
  | (_, _) :: _ => none

/-- `json.Unmarshal` of a `map[string]string` value: `null` leaves the map
nil (modelled `none`), an object decodes its entries, anything else errors. -/
def decodeStrMap : Json → Option (Option (List (String × String)))
  | .null => some none
  | .obj fs => (decodeStrMapFields [] fs).map some
  | _ => none

/-- `json.Unmarshal` into `stateFile`: a missing `threads` field leaves the
nil map, a present one must decode as a string map. -/
def unmarshalStateFile (j : Json) : Option (Option (List (String × String))) :=
  match j with
  | .obj fs =>
    match alookup fs "threads" with
    | none => some none
    | some v => decodeStrMap v
  | _ => none

/-- `Adapter.loadState`: keep the current map when the file is unreadable,
fails to parse, or decodes to a nil `Threads` map; otherwise replace it. -/
def loadState (old : List (String × String)) (file : Option Json) :
    List (String × String) :=
  match file with
  | none => old
  | some j =>
    match unmarshalStateFile j with
    | none => old
    | some none => old
    | some (some m) => m

/-- `json.Marshal` of a `[]string` (a nil slice would encode as `null`;
Lean lists have no nil/empty distinction and both decode alike). -/
def encodeStrList (l : List String) : Json :=
  .arr (l.map .str)

/-- `json.Unmarshal` of a `[]string` element list. -/
def decodeStrElems : List Json → Option (List String)
  | [] => some []
  | .str s :: rest => (decodeStrElems rest).map (s :: ·)
  | _ :: _ => none

/-- `json.Unmarshal` into a `[]string`: `null` yields the nil slice. -/
def decodeStrList : Json → Option (List String)
  | .null => some []
  | .arr xs => decodeStrElems xs
  | _ => none

/-- Read a string-typed field with Go's semantics: a missing field or JSON
`null` leaves the zero value, a wrong-typed one is a decode error. -/
def fieldStr (fs : List (String × Json)) (name : String) : Option String :=
  match alookup fs name with
  | none => some ""
  | some .null => some ""
  | some (.str s) => some s
  | some _ => none

/-- Read an int-typed field with Go's semantics. -/
def fieldInt (fs : List (String × Json)) (name : String) : Option Int :=
  match alookup fs name with
  | none => some 0
  | some .null => some 0
  | some (.num n) => some n
  | some _ => none

/-- Read a `[]string`-typed field with Go's semantics. -/
def fieldStrList (fs : List (String × Json)) (name : String) : Option (List String) :=
  match alookup fs name with
  | none => some []
  | some v => decodeStrList v

/-- `json.Marshal` of a `chatMemory` record, fields in declaration order. -/
def encodeChatMemory (m : ChatMemory) : Json :=
  .obj [("summary", .str m.summary),
        ("rules", encodeStrList m.rules),
        ("prefs", encodeStrList m.prefs),
        ("updated_at", .str m.updatedAt),
        ("compacted_at", .str m.compactedAt),
        ("tokens_since_compact", .num m.tokensSinceCompact),
        ("turns_since_compact", .num m.turnsSinceCompact),
        ("skill_ideas", encodeStrList m.skillIdeas)]

/-- `json.Unmarshal` into a `chatMemory` record. -/
def decodeChatMemory : Json → Option ChatMemory
  | .obj fs => do
    let summary ← fieldStr fs "summary"
    let rules ← fieldStrList fs "rules"
    let prefs ← fieldStrList fs "prefs"
    let updatedAt ← fieldStr fs "updated_at"
    let compactedAt ← fieldStr fs "compacted_at"
    let tokens ← fieldInt fs "tokens_since_compact"
    let turns ← fieldInt fs "turns_since_compact"
    let skillIdeas ← fieldStrList fs "skill_ideas"
    some { summary := summary, rules := rules, prefs := prefs,
           updatedAt := updatedAt, compactedAt := compactedAt,
           tokensSinceCompact := tokens, turnsSinceCompact := turns,
           skillIdeas := skillIdeas }
  | _ => none

/-- `json.Marshal` of `memoryFile{Chats: m}`. -/
def marshalMemory (m : List (String × ChatMemory)) : Json :=
  .obj [("chats", .obj (m.map (fun p => (p.1, encodeChatMemory p.2))))]

/-- `json.Unmarshal` into a `map[string]*chatMemory`, entries left to right. -/
def decodeMemFields (acc : List (String × ChatMemory)) :
    List (String × Json) → Option (List (String × ChatMemory))
  | [] => some acc
  | (k, v) :: rest =>
    match decodeChatMemory v with
    | some c => decodeMemFields (aset acc k c) rest
    | none => none

/-- `json.Unmarshal` into `memoryFile`: `null` or a missing `chats` field
leaves the nil map. -/
def unmarshalMemoryFile (j : Json) : Option (Option (List (String × ChatMemory))) :=
  match j with
  | .obj fs =>
    match alookup fs "chats" with
    | none => some none
    | some .null => some none
    | some (.obj gs) => (decodeMemFields [] gs).map some
    | some _ => none
  | _ => none

/-- `Adapter.loadMemory`: keep the current map when the file is unreadable,
fails to parse, or decodes to a nil `Chats` map; otherwise replace it. -/
def loadMemory (old : List (String × ChatMemory)) (file : Option Json) :
    List (String × ChatMemory) :=
  match file with
  | none => old
  | some j =>
    match unmarshalMemoryFile j with
    | none => old
    | some none => old
    | some (some m) => m

/-- First-occurrence de-duplication relative to an already-seen set. -/
def dedupFirstAux (seen : List String) : List String → List String
  | [] => []
  | s :: rest =>
    if s ∈ seen then dedupFirstAux seen rest
    else s :: dedupFirstAux (s :: seen) rest

/-- Specification-side merge, written from the spec's words ("new rules/prefs
are appended to existing lists with exact-string de-duplication", "order
preserved, duplicates removed", "then truncated to a fixed cap"), for
comparison with the source's `mergeUnique`. -/
def specMerge (base add : List String) (cap : Nat) : List String :=
  (dedupFirstAux [] (base ++ add)).take cap

/-- A handle whose 256-slot event buffer is completely full. -/
def fullBufHandle : HandleExec :=
  { chatKey := "1",
    events := List.replicate 256 { type := .status, text := "x" } }

/-- The spec's example line
`type item.completed, item type agent_message, item text "hello"`. -/
def helloLine : JSONLine :=
  .ok { type := "item.completed",
        item := some { type := "agent_message", text := "hello" } }

/-- The memory configuration of the spec's token-counter scenario:
token threshold 200, default turn threshold. -/
def cfg200 : MemCfg := { enabled := true, tokenThreshold := 200, turnThreshold := 40 }

/-- A turn reporting 100 input and 50 output tokens. -/
def usage150 : CodexUsage := { inputTokens := 100, outputTokens := 50 }

/-! ## Association-list lemmas (Go map semantics) -/

theorem alookup_aset_self {α : Type} (m : List (String × α)) (k : String) (v : α) :
    alookup (aset m k v) k = some v := by
  induction m with
  | nil => simp [aset, alookup]
  | cons p rest ih =>
    by_cases h : p.1 = k
    · simp [aset, h, alookup]
    · simp [aset, h, alookup, ih]

theorem alookup_aerase_self {α : Type} (m : List (String × α)) (k : String)
    (hnd : (m.map Prod.fst).Nodup) : alookup (aerase m k) k = none := by
  induction m with
  | nil => simp [aerase, alookup]
  | cons p rest ih =>
    simp only [List.map_cons, List.nodup_cons] at hnd
    by_cases h : p.1 = k
    · have : ∀ q ∈ rest, q.1 ≠ k := by
        intro q hq hqk
        exact hnd.1 (h ▸ hqk ▸ List.mem_map_of_mem Prod.fst hq)
      clear ih hnd
      induction rest with
      | nil => simp [aerase, h, alookup]
      | cons q rest2 ih2 =>
        simp only [aerase, h, if_true]
        simp only [alookup]
        rw [if_neg (this q (by simp))]
        have := ih2 (fun r hr => this r (by simp [hr]))
        simpa [aerase, h] using this
    · simp [aerase, h, alookup, ih hnd.2]

theorem aset_eq_append {α : Type} (m : List (String × α)) (k : String) (v : α)
    (hk : k ∉ m.map Prod.fst) : aset m k v = m ++ [(k, v)] := by
  induction m with
  | nil => simp [aset]
  | cons p rest ih =>
    simp only [List.map_cons, List.mem_cons] at hk
    push_neg at hk
    simp [aset, Ne.symm hk.1, ih hk.2]

/-! ## C10: empty or whitespace-only input -/

/-- C10: a `Send` on a structured exec handle whose input trims to the empty
string returns nil immediately: no subprocess is spawned, no event is
emitted, and the transcript, thread state and memory are untouched. -/
theorem sendExec_empty_input_noop (h : HandleExec) (a : AdapterState)
    (input : String) (spawn : List String → SpawnOutcome)
    (hempty : goTrimSpace input = "") :
    sendExec h a input spawn = (h, a, false, none) := by
  unfold sendExec
  simp [hempty]

/-- C10 witness: a whitespace-only input on a default handle. -/
theorem sendExec_empty_input_noop_w :
    goTrimSpace "  \t\n " = "" ∧
    sendExec {} {} "  \t\n " (fun _ => {}) =
      ({}, ({} : AdapterState), false, none) :=
  ⟨by decide, sendExec_empty_input_noop {} {} "  \t\n " (fun _ => {}) (by decide)⟩

/-! ## C6: the compaction merge -/

theorem mergePush_foldl (l : List String) :
    ∀ seen out, (∀ s ∈ l, goTrimSpace s = s ∧ s ≠ "") →
    (l.foldl mergePush (seen, out)).2 = out ++ dedupFirstAux seen l := by
  induction l with
  | nil => intro seen out _; simp [dedupFirstAux]
  | cons s rest ih =>
    intro seen out H
    have hs := H s (by simp)
    have Hrest : ∀ t ∈ rest, goTrimSpace t = t ∧ t ≠ "" := by
      intro t ht; exact H t (by simp [ht])
    by_cases hmem : s ∈ seen
    · simp only [List.foldl_cons, mergePush, hs.1, if_neg hs.2, if_pos hmem]
      rw [ih seen out Hrest]
      simp [dedupFirstAux, hmem]
    · simp only [List.foldl_cons, mergePush, hs.1, if_neg hs.2, if_neg hmem]
      rw [ih (s :: seen) (out ++ [s]) Hrest]
      simp [dedupFirstAux, hmem]

theorem capTrunc (out : List String) (limit : Nat) (h : 0 < limit) :
    (if 0 < limit ∧ limit < out.length then out.take limit else out) =
      out.take limit := by
  by_cases hlt : limit < out.length
  · simp [h, hlt]
  · simp [h, hlt, List.take_of_length_le (le_of_not_lt hlt)]

theorem trimList_length_le (l : List String) (limit : Nat) (h : 0 < limit) :
    (trimList l limit).length ≤ limit := by
  unfold trimList
  by_cases hlt : limit < (trimFilter l).length
  · simp [h, hlt, List.length_take]
  · simp only [h, hlt, and_false, if_false, true_and, if_neg]
    omega

/-- C6: the merge used by compaction appends new rules/prefs to the existing
list with exact-string de-duplication, preserves first-occurrence order and
truncates to the cap — on trimmed non-empty entries it coincides with the
specification-side `specMerge`, and on the spec's example yields
`["a","b","c"]` under cap 20; skill ideas instead replace the previous list
wholesale, truncated to the smaller cap of 5. -/
theorem merge_dedup_capped :
    mergeUnique ["a", "b"] ["b", "c"] 20 = ["a", "b", "c"] ∧
    (∀ base add limit, 0 < limit →
      (∀ s ∈ base ++ add, goTrimSpace s = s ∧ s ≠ "") →
      mergeUnique base add limit = specMerge base add limit) ∧
    (∀ (m : ChatMemory) (res : CompactResult) (now : String),
      (applyCompact m res now).skillIdeas = trimList res.skillIdeas 5 ∧
      (applyCompact m res now).rules = mergeUnique m.rules res.rules 20 ∧
      (applyCompact m res now).prefs = mergeUnique m.prefs res.prefs 20 ∧
      (trimList res.skillIdeas 5).length ≤ 5) := by
  refine ⟨by decide, ?_, ?_⟩
  · intro base add limit hpos H
    unfold mergeUnique specMerge
    rw [mergePush_foldl (base ++ add) [] [] H]
    simpa using capTrunc (dedupFirstAux [] (base ++ add)) limit hpos
  · intro m res now
    exact ⟨rfl, rfl, rfl, trimList_length_le res.skillIdeas 5 (by decide)⟩

/-- C6 witness: the general merge conjunct applied at the spec's example. -/
theorem merge_dedup_capped_w :
    (0 < 20 ∧ ∀ s ∈ ["a", "b"] ++ ["b", "c"], goTrimSpace s = s ∧ s ≠ "") ∧
    mergeUnique ["a", "b"] ["b", "c"] 20 = specMerge ["a", "b"] ["b", "c"] 20 :=
  ⟨⟨by decide, by decide⟩,
   merge_dedup_capped.2.1 ["a", "b"] ["b", "c"] 20 (by decide) (by decide)⟩

/-! ## C3: first-writer-wins thread adoption -/

@[simp] theorem emitExec_threadID (h : HandleExec) (t : EventType) (s : String) :
    (emitExec h t s).threadID = h.threadID := by
  unfold emitExec; split <;> rfl

@[simp] theorem emitExec_chatKey (h : HandleExec) (t : EventType) (s : String) :
    (emitExec h t s).chatKey = h.chatKey := by
  unfold emitExec; split <;> rfl

@[simp] theorem emitExec_globalArgs (h : HandleExec) (t : EventType) (s : String) :
    (emitExec h t s).globalArgs = h.globalArgs := by
  unfold emitExec; split <;> rfl

@[simp] theorem emitExec_skipGit (h : HandleExec) (t : EventType) (s : String) :
    (emitExec h t s).skipGitRepoCheck = h.skipGitRepoCheck := by
  unfold emitExec; split <;> rfl

@[simp] theorem appendTranscript_threadID (h : HandleExec) (s : String) :
    (appendTranscript h s).threadID = h.threadID := rfl

@[simp] theorem appendTranscript_chatKey (h : HandleExec) (s : String) :
    (appendTranscript h s).chatKey = h.chatKey := rfl

@[simp] theorem appendTranscript_events (h : HandleExec) (s : String) :
    (appendTranscript h s).events = h.events := rfl

theorem readJSONLStep_preserve (h : HandleExec) (a : AdapterState) (l : JSONLine)
    (ht : h.threadID ≠ "") :
    (readJSONLStep (h, a) l).1.threadID = h.threadID ∧
    (readJSONLStep (h, a) l).1.chatKey = h.chatKey ∧
    (readJSONLStep (h, a) l).2 = a := by
  cases l with
  | bad msg => simp [readJSONLStep]
  | ok ev =>
    simp only [readJSONLStep]
    by_cases h1 : ev.type = "thread.started"
    · by_cases h2 : ev.threadID = ""
      · simp [h1, h2]
      · simp [h1, h2, ht]
    · by_cases h3 : ev.type = "item.completed"
      · cases hit : ev.item with
        | none => simp [h1, h3, hit]
        | some it =>
          by_cases h4 : it.type = "agent_message" ∧ it.text ≠ ""
          · simp [h1, h3, hit, h4]
          · simp [h1, h3, hit, h4]
      · simp [h1, h3]

theorem readJSONL_preserve (ls : List JSONLine) :
    ∀ (h : HandleExec) (a : AdapterState), h.threadID ≠ "" →
    (readJSONL (h, a) ls).1.threadID = h.threadID ∧
    (readJSONL (h, a) ls).1.chatKey = h.chatKey ∧
    (readJSONL (h, a) ls).2 = a := by
  induction ls with
  | nil => intro h a ht; exact ⟨rfl, rfl, rfl⟩
  | cons l rest ih =>
    intro h a ht
    have hstep := readJSONLStep_preserve h a l ht
    have hrec := ih (readJSONLStep (h, a) l).1 (readJSONLStep (h, a) l).2
      (by rw [hstep.1]; exact ht)
    simp only [readJSONL, List.foldl_cons] at *
    refine ⟨?_, ?_, ?_⟩
    · rw [hrec.1, hstep.1]
    · rw [hrec.2.1, hstep.2.1]
    · rw [hrec.2.2, hstep.2.2]

theorem readJSONLStep_noadopt (h : HandleExec) (a : AdapterState) (l : JSONLine)
    (ht : h.threadID = "")
    (hl : ∀ j, l = JSONLine.ok j → j.type = "thread.started" → j.threadID = "") :
    (readJSONLStep (h, a) l).1.threadID = "" ∧
    (readJSONLStep (h, a) l).1.chatKey = h.chatKey ∧
    (readJSONLStep (h, a) l).2 = a := by
  cases l with
  | bad msg => simp [readJSONLStep, ht]
  | ok ev =>
    simp only [readJSONLStep]
    by_cases h1 : ev.type = "thread.started"
    · have h2 : ev.threadID = "" := hl ev rfl h1
      simp [h1, h2, ht]
    · by_cases h3 : ev.type = "item.completed"
      · cases hit : ev.item with
        | none => simp [h1, h3, hit, ht]
        | some it =>
          by_cases h4 : it.type = "agent_message" ∧ it.text ≠ ""
          · simp [h1, h3, hit, h4, ht]
          · simp [h1, h3, hit, h4, ht]
      · simp [h1, h3, ht]

theorem readJSONL_noadopt (ls : List JSONLine) :
    ∀ (h : HandleExec) (a : AdapterState), h.threadID = "" →
    (∀ l ∈ ls, ∀ j, l = JSONLine.ok j → j.type = "thread.started" → j.threadID = "") →
    (readJSONL (h, a) ls).1.threadID = "" ∧
    (readJSONL (h, a) ls).1.chatKey = h.chatKey ∧
    (readJSONL (h, a) ls).2 = a := by
  induction ls with
  | nil => intro h a ht _; exact ⟨ht, rfl, rfl⟩
  | cons l rest ih =>
    intro h a ht H
    have hstep := readJSONLStep_noadopt h a l ht (H l (by simp))
    have hrec := ih (readJSONLStep (h, a) l).1 (readJSONLStep (h, a) l).2
      hstep.1 (fun l2 hl2 => H l2 (by simp [hl2]))
    simp only [readJSONL, List.foldl_cons] at *
    refine ⟨hrec.1, ?_, ?_⟩
    · rw [hrec.2.1, hstep.2.1]
    · rw [hrec.2.2, hstep.2.2]

theorem setThread_lookup (a : AdapterState) (ck tid : String)
    (hck : ck ≠ "") (htid : tid ≠ "") (hinv : a.persistedThreads = a.threads) :
    alookup (setThread a ck tid).threads ck = some tid ∧
    (setThread a ck tid).persistedThreads = (setThread a ck tid).threads := by
  unfold setThread
  simp only [hck, htid, or_self, if_false, false_or]
  by_cases he : (alookup a.threads ck).getD "" = tid
  · have hlk : alookup a.threads ck = some tid := by
      cases hx : alookup a.threads ck with
      | none => rw [hx] at he; exact absurd he.symm htid
      | some v => rw [hx] at he; rw [Option.getD_some] at he; rw [he]
    simp [he, hlk, hinv]
  · simp [he, saveStateLocked, alookup_aset_self]

theorem readJSONLStep_adopt (h : HandleExec) (a : AdapterState) (T1 : String)
    (ht : h.threadID = "") (hck : h.chatKey ≠ "") (hT1 : T1 ≠ "") :
    readJSONLStep (h, a) (.ok { type := "thread.started", threadID := T1 }) =
      (appendTranscript { h with threadID := T1 } ("[resume thread_id " ++ T1 ++ "]\n"),
       setThread a h.chatKey T1) := by
  simp [readJSONLStep, hT1, ht, hck]

/-- C3: within one structured exec handle's lifetime only the first observed
non-empty `thread.started` identifier is adopted and persisted: for any
stream that first carries a non-empty identifier `T1` (after a prefix with
no non-empty `thread.started` records) and later a second one `T2`, the
handle's thread identifier and the persisted continuation identifier are
`T1` only, whatever follows — first-writer-wins, idempotent against
duplicates. -/
theorem thread_first_writer_wins (h : HandleExec) (a : AdapterState)
    (pre post : List JSONLine) (T1 T2 : String)
    (h0 : h.threadID = "") (hck : h.chatKey ≠ "") (hT1 : T1 ≠ "")
    (hinv : a.persistedThreads = a.threads)
    (hpre : ∀ l ∈ pre, ∀ j, l = JSONLine.ok j → j.type = "thread.started" →
      j.threadID = "") :
    (readJSONL (h, a)
      (pre ++ [.ok { type := "thread.started", threadID := T1 },
               .ok { type := "thread.started", threadID := T2 }] ++ post)).1.threadID
      = T1 ∧
    getThread (readJSONL (h, a)
      (pre ++ [.ok { type := "thread.started", threadID := T1 },
               .ok { type := "thread.started", threadID := T2 }] ++ post)).2 h.chatKey
      = T1 ∧
    alookup (readJSONL (h, a)
      (pre ++ [.ok { type := "thread.started", threadID := T1 },
               .ok { type := "thread.started", threadID := T2 }] ++ post)).2.persistedThreads
      h.chatKey = some T1 := by
  have hsplit : readJSONL (h, a)
      (pre ++ [.ok { type := "thread.started", threadID := T1 },
               .ok { type := "thread.started", threadID := T2 }] ++ post) =
      readJSONL (readJSONLStep (readJSONLStep (readJSONL (h, a) pre)
        (.ok { type := "thread.started", threadID := T1 }))
        (.ok { type := "thread.started", threadID := T2 })) post := by
    simp [readJSONL, List.foldl_append]
  rw [hsplit]
  have hphase1 := readJSONL_noadopt pre h a h0 hpre
  rcases hpre1 : readJSONL (h, a) pre with ⟨h1, a1⟩
  rw [hpre1] at hphase1
  have hp1 : h1.threadID = "" := hphase1.1
  have hp2 : h1.chatKey = h.chatKey := hphase1.2.1
  have hp3 : a1 = a := hphase1.2.2
  have hadopt := readJSONLStep_adopt h1 a1 T1 hp1 (by rw [hp2]; exact hck) hT1
  rcases hs3 : readJSONLStep (readJSONLStep (h1, a1)
      (.ok { type := "thread.started", threadID := T1 }))
      (.ok { type := "thread.started", threadID := T2 }) with ⟨h3, a3⟩
  rw [hadopt] at hs3
  have hstep2 := readJSONLStep_preserve
    (appendTranscript { h1 with threadID := T1 } ("[resume thread_id " ++ T1 ++ "]\n"))
    (setThread a1 h1.chatKey T1)
    (.ok { type := "thread.started", threadID := T2 })
    (by simp [hT1])
  rw [hs3] at hstep2
  have h3t : h3.threadID = T1 := by
    have := hstep2.1
    simpa using this
  have h3a : a3 = setThread a h.chatKey T1 := by
    have := hstep2.2.2
    rw [hp2, hp3] at this
    exact this
  have hset := setThread_lookup a h.chatKey T1 hck hT1 hinv
  have hphase3 := readJSONL_preserve post h3 a3 (by rw [h3t]; exact hT1)
  refine ⟨?_, ?_, ?_⟩
  · rw [hphase3.1, h3t]
  · rw [hphase3.2.2, h3a]
    unfold getThread
    rw [if_neg hck, hset.1]
    rfl
  · rw [hphase3.2.2, h3a, hset.2, hset.1]

/-- C3 witness: the two-line stream of the spec's testable property on a
fresh handle for chat key "1". -/
theorem thread_first_writer_wins_w :
    (readJSONL (({ chatKey := "1" } : HandleExec), ({} : AdapterState))
      ([] ++ [.ok { type := "thread.started", threadID := "T1" },
              .ok { type := "thread.started", threadID := "T2" }] ++ [])).1.threadID
      = "T1" ∧
    getThread (readJSONL (({ chatKey := "1" } : HandleExec), ({} : AdapterState))
      ([] ++ [.ok { type := "thread.started", threadID := "T1" },
              .ok { type := "thread.started", threadID := "T2" }] ++ [])).2 "1"
      = "T1" ∧
    alookup (readJSONL (({ chatKey := "1" } : HandleExec), ({} : AdapterState))
      ([] ++ [.ok { type := "thread.started", threadID := "T1" },
              .ok { type := "thread.started", threadID := "T2" }] ++ [])).2.persistedThreads
      "1" = some "T1" :=
  thread_first_writer_wins { chatKey := "1" } {} [] [] "T1" "T2" rfl (by decide)
    (by decide) rfl (by simp)

/-! ## C2: agent-message emission and the overflow drop path -/

set_option maxRecDepth 4096 in
/-- C2 counterexample: on a handle whose 256-slot event buffer is full, the
spec's example line (`item.completed` / `agent_message` / `"hello"`)
produces no output Event at all — the agent-message text goes through the
same drop-on-overflow `emit` as every other event, so it is not exempt from
drops on a full buffer. -/
theorem agent_message_dropped_on_full_buffer :
    (readJSONLStep (fullBufHandle, ({} : AdapterState)) helloLine).1.events =
      fullBufHandle.events ∧
    ({ type := EventType.stdout, text := "hello\n" } : Event) ∉
      (readJSONLStep (fullBufHandle, ({} : AdapterState)) helloLine).1.events := by
  constructor
  · decide
  · decide

/-- C2 (amended): a stdout line parsed as `item.completed` whose item is an
`agent_message` with non-empty text produces exactly one output Event whose
text is the message text with a trailing newline appended if missing
("hello" yields "hello\n"), provided the event buffer is not full; when the
256-slot buffer is full the event is silently dropped like any other (the
text is still appended to the transcript).  Adapter state is untouched
either way. -/
theorem agent_message_emitted_once (h : HandleExec) (a : AdapterState)
    (txt : String) (hne : txt ≠ "") :
    (readJSONLStep (h, a)
      (.ok { type := "item.completed",
             item := some { type := "agent_message", text := txt } })).2 = a ∧
    (readJSONLStep (h, a)
      (.ok { type := "item.completed",
             item := some { type := "agent_message", text := txt } })).1.transcript =
      h.transcript ++ [ensureNewline txt] ∧
    (h.events.length < eventCap →
      (readJSONLStep (h, a)
        (.ok { type := "item.completed",
               item := some { type := "agent_message", text := txt } })).1.events =
        h.events ++ [{ type := .stdout, text := ensureNewline txt }]) ∧
    (¬ h.events.length < eventCap →
      (readJSONLStep (h, a)
        (.ok { type := "item.completed",
               item := some { type := "agent_message", text := txt } })).1.events =
        h.events) ∧
    ensureNewline "hello" = "hello\n" := by
  refine ⟨?_, ?_, ?_, ?_, by decide⟩
  · simp [readJSONLStep, hne]
  · simp [readJSONLStep, hne, emitExec, appendTranscript]
    split <;> rfl
  · intro hroom
    simp [readJSONLStep, hne, emitExec, appendTranscript, hroom]
  · intro hfull
    simp [readJSONLStep, hne, emitExec, appendTranscript, hfull]

/-- C2 witness: the spec's example on an empty-buffer handle. -/
theorem agent_message_emitted_once_w :
    (({} : HandleExec).events.length < eventCap ∧
      (readJSONLStep (({} : HandleExec), ({} : AdapterState))
        (.ok { type := "item.completed",
               item := some { type := "agent_message", text := "hello" } })).1.events =
        ({} : HandleExec).events ++ [{ type := .stdout, text := ensureNewline "hello" }]) ∧
    ensureNewline "hello" = "hello\n" :=
  ⟨⟨by decide,
    (agent_message_emitted_once {} {} "hello" (by decide)).2.2.1 (by decide)⟩,
   (agent_message_emitted_once {} {} "hello" (by decide)).2.2.2.2⟩

/-! ## C9: fresh sessions discard the persisted continuation identifier -/

theorem goEndsWith_append (x p : String) : goEndsWith (x ++ p) p = true := by
  unfold goEndsWith
  rw [List.isSuffixOf_iff_suffix]
  show p.toList <:+ (x ++ p).toList
  have hx : (x ++ p).toList = x.toList ++ p.toList := rfl
  rw [hx]
  exact List.suffix_append _ _

theorem clearThread_cleared (a : AdapterState) (ck : String)
    (hnd : (a.threads.map Prod.fst).Nodup)
    (hinv : a.persistedThreads = a.threads) :
    getThread (clearThread a ck) ck = "" ∧
    (clearThread a ck).persistedThreads = (clearThread a ck).threads := by
  unfold clearThread
  by_cases hck : ck = ""
  · simp [hck, getThread, hinv]
  · simp only [hck, if_false]
    cases hx : alookup a.threads ck with
    | none =>
      refine ⟨?_, hinv⟩
      unfold getThread
      rw [if_neg hck, hx]
      rfl
    | some v =>
      refine ⟨?_, by simp [saveStateLocked]⟩
      unfold getThread
      rw [if_neg hck]
      simp only [saveStateLocked]
      rw [alookup_aerase_self a.threads ck hnd]
      rfl

theorem startExec_fresh (cfg : AdapterCfg) (a : AdapterState) (sid : String)
    (hf : (parseChatKey sid).2 = true)
    (hnd : (a.threads.map Prod.fst).Nodup)
    (hinv : a.persistedThreads = a.threads) :
    (startExec cfg a sid).2.threadID = "" ∧
    (startExec cfg a sid).2.globalArgs = cfg.globalArgs ∧
    (startExec cfg a sid).2.skipGitRepoCheck = cfg.skipGitRepoCheck ∧
    getThread (startExec cfg a sid).1 (parseChatKey sid).1 = "" ∧
    (startExec cfg a sid).1.persistedThreads = (startExec cfg a sid).1.threads := by
  unfold startExec
  by_cases hck : (parseChatKey sid).1 = ""
  · simp [hck, getThread, hinv]
  · have hc := clearThread_cleared a (parseChatKey sid).1 hnd hinv
    simp only [hf, true_and, hck, not_false_iff, if_true, ne_eq, if_neg, hc.1]
    simp [hc.1, hc.2]

/-- C9: for every fresh-session creation (a `NewFresh` session identifier,
which always carries the fresh flag), adapter `Start` clears the persisted
continuation identifier for that conversation identity before the session's
first turn, so the handle starts with no thread identifier and the first
send of a fresh session builds a start-new invocation (no `resume`
sub-invocation), never resuming the old continuation. -/
theorem fresh_session_never_resumes (cfg : AdapterCfg) (a : AdapterState)
    (chatID : Int) (ts : Nat) (spawn : List String → SpawnOutcome)
    (input : String) (hin : goTrimSpace input ≠ "")
    (hnd : (a.threads.map Prod.fst).Nodup)
    (hinv : a.persistedThreads = a.threads) :
    (startExec cfg a (freshSessionID chatID ts)).2.threadID = "" ∧
    getThread (startExec cfg a (freshSessionID chatID ts)).1
      (parseChatKey (freshSessionID chatID ts)).1 = "" ∧
    (startExec cfg a (freshSessionID chatID ts)).1.persistedThreads =
      (startExec cfg a (freshSessionID chatID ts)).1.threads ∧
    (sendExec (startExec cfg a (freshSessionID chatID ts)).2
        (startExec cfg a (freshSessionID chatID ts)).1 input spawn).2.2.2 =
      some (buildArgv cfg.globalArgs cfg.skipGitRepoCheck "" (goTrimSpace input)) ∧
    buildArgv cfg.globalArgs cfg.skipGitRepoCheck "" (goTrimSpace input) =
      cfg.globalArgs ++ ["exec", "--json"] ++
        (if cfg.skipGitRepoCheck then ["--skip-git-repo-check"] else []) ++
        [goTrimSpace input] := by
  have hf : (parseChatKey (freshSessionID chatID ts)).2 = true := by
    show goEndsWith (freshSessionID chatID ts) "-fresh" = true
    unfold freshSessionID
    exact goEndsWith_append ("chat-" ++ toString chatID ++ "-" ++ toString ts) "-fresh"
  have hs := startExec_fresh cfg a (freshSessionID chatID ts) hf hnd hinv
  refine ⟨hs.1, hs.2.2.2.1, hs.2.2.2.2, ?_, ?_⟩
  · unfold sendExec
    simp only [hin, if_neg, hs.1, hs.2.1, hs.2.2.1]
    simp
  · unfold buildArgv
    by_cases hsg : cfg.skipGitRepoCheck <;> simp [hsg]

/-- C9 witness: chat 123, timestamp 5, a one-word prompt. -/
theorem fresh_session_never_resumes_w :
    (goTrimSpace "hi" ≠ "" ∧
      ((({} : AdapterState).threads.map Prod.fst).Nodup) ∧
      ({} : AdapterState).persistedThreads = ({} : AdapterState).threads) ∧
    (startExec {} {} (freshSessionID 123 5)).2.threadID = "" ∧
    getThread (startExec {} {} (freshSessionID 123 5)).1
      (parseChatKey (freshSessionID 123 5)).1 = "" :=
  ⟨⟨by decide, by decide, rfl⟩,
   (fresh_session_never_resumes {} {} 123 5 (fun _ => {}) "hi" (by decide)
      (by decide) rfl).1,
   (fresh_session_never_resumes {} {} 123 5 (fun _ => {}) "hi" (by decide)
      (by decide) rfl).2.1⟩

/-! ## C8: cursor-position queries -/

theorem subIndex_le {α : Type} [DecidableEq α] (pat : List α) (b : List α) :
    ∀ i, subIndex pat b = some i → i + pat.length ≤ b.length := by
  induction b with
  | nil =>
    intro i hi
    unfold subIndex at hi
    by_cases hp : pat.isEmpty
    · rw [if_pos hp] at hi
      cases hi
      simp [List.isEmpty_iff.mp hp]
    · rw [if_neg hp] at hi
      cases hi
  | cons hd tl ih =>
    intro i hi
    unfold subIndex at hi
    by_cases hp : pat.isPrefixOf (hd :: tl)
    · rw [if_pos hp] at hi
      cases hi
      have := (List.isPrefixOf_iff_prefix.mp hp).length_le
      simpa using this
    · rw [if_neg hp] at hi
      rcases Option.map_eq_some'.mp hi with ⟨j, hj, hij⟩
      have := ih j hj
      simp only [List.length_cons]
      omega

theorem stripStep_length (b b2 : List Nat) (h : stripStep b = some b2) :
    b2.length < b.length := by
  unfold stripStep at h
  cases hx : subIndex dsrCursor b with
  | none =>
    cases hy : subIndex dsrCursorQ b with
    | none => rw [hx, hy] at h; cases h
    | some j =>
      rw [hx, hy] at h
      cases h
      have hb := subIndex_le dsrCursorQ b j hy
      simp only [dsrCursorQ, List.length_cons, List.length_nil] at hb
      simp [List.length_take, List.length_drop]
      omega
  | some i =>
    have hbi := subIndex_le dsrCursor b i hx
    simp only [dsrCursor, List.length_cons, List.length_nil] at hbi
    cases hy : subIndex dsrCursorQ b with
    | none =>
      rw [hx, hy] at h
      cases h
      simp [List.length_take, List.length_drop]
      omega
    | some j =>
      have hbj := subIndex_le dsrCursorQ b j hy
      simp only [dsrCursorQ, List.length_cons, List.length_nil] at hbj
      rw [hx, hy] at h
      simp only [] at h
      by_cases hlt : j < i
      · rw [if_pos hlt] at h
        cases h
        simp [List.length_take, List.length_drop]
        omega
      · rw [if_neg hlt] at h
        cases h
        simp [List.length_take, List.length_drop]
        omega

theorem stripStep_none (b : List Nat) (h : stripStep b = none) :
    subIndex dsrCursor b = none ∧ subIndex dsrCursorQ b = none := by
  unfold stripStep at h
  cases hx : subIndex dsrCursor b with
  | none =>
    cases hy : subIndex dsrCursorQ b with
    | none => exact ⟨rfl, rfl⟩
    | some j => rw [hx, hy] at h; cases h
  | some i =>
    cases hy : subIndex dsrCursorQ b with
    | none => rw [hx, hy] at h; cases h
    | some j =>
      rw [hx, hy] at h
      simp only [] at h
      by_cases hlt : j < i
      · rw [if_pos hlt] at h; cases h
      · rw [if_neg hlt] at h; cases h

theorem stripQueries_clean (fuel : Nat) :
    ∀ b : List Nat, b.length ≤ fuel → stripStep (stripQueries fuel b).1 = none := by
  induction fuel with
  | zero =>
    intro b hb
    have : b = [] := List.eq_nil_of_length_eq_zero (Nat.le_zero.mp hb)
    subst this
    decide
  | succ fuel ih =>
    intro b hb
    unfold stripQueries
    cases hs : stripStep b with
    | none => exact hs
    | some b2 =>
      have := stripStep_length b b2 hs
      exact ih b2 (by omega)

theorem stripQueries_replies (fuel : Nat) :
    ∀ (b r : List Nat), r ∈ (stripQueries fuel b).2 → r = dsrReply := by
  induction fuel with
  | zero => intro b r hr; simp [stripQueries] at hr
  | succ fuel ih =>
    intro b r hr
    unfold stripQueries at hr
    cases hs : stripStep b with
    | none => rw [hs] at hr; simp at hr
    | some b2 =>
      rw [hs] at hr
      simp only [List.mem_cons] at hr
      cases hr with
      | inl h => exact h
      | inr h => exact ih b2 r h

/-- C8: in the interactive variant's output handling, every complete
occurrence of a cursor-position query (ESC `[6n` or ESC `[?6n`) in a
received chunk is removed before the chunk is forwarded (the cleaned bytes
contain no complete occurrence, and a chunk without queries is forwarded
unchanged), and everything written to the child's input is the canned
row-1-column-1 reply, one per removed occurrence; for a chunk with ESC `[6n`
embedded mid-line, the forwarded bytes have the sequence removed and exactly
one reply was written. -/
theorem cursor_query_stripped :
    (∀ b : List Nat, subIndex dsrCursor (handleTermQueries b).1 = none ∧
      subIndex dsrCursorQ (handleTermQueries b).1 = none) ∧
    (∀ b r : List Nat, r ∈ (handleTermQueries b).2 → r = dsrReply) ∧
    handleTermQueries ([65, 66] ++ dsrCursor ++ [67, 68, 10]) =
      ([65, 66, 67, 68, 10], [dsrReply]) ∧
    (∀ b : List Nat, stripStep b = none → handleTermQueries b = (b, [])) := by
  refine ⟨?_, ?_, by decide, ?_⟩
  · intro b
    exact stripStep_none _ (stripQueries_clean b.length b le_rfl)
  · intro b r hr
    exact stripQueries_replies b.length b r hr
  · intro b hb
    unfold handleTermQueries
    cases b with
    | nil => rfl
    | cons hd tl =>
      simp only [List.length_cons]
      unfold stripQueries
      rw [hb]

/-- C8 witness: the mid-line chunk of the spec's example, with its single
written reply recognized by the reply-shape conjunct. -/
theorem cursor_query_stripped_w :
    dsrReply ∈ (handleTermQueries ([65, 66] ++ dsrCursor ++ [67, 68, 10])).2 ∧
    dsrReply = dsrReply :=
  ⟨by decide,
   cursor_query_stripped.2.1 ([65, 66] ++ dsrCursor ++ [67, 68, 10]) dsrReply
     (by decide)⟩

/-! ## C7: persistence round-trips -/

theorem decodeStrMapFields_encode (m : List (String × String)) :
    ∀ acc : List (String × String), (m.map Prod.fst).Nodup →
    (∀ k ∈ m.map Prod.fst, k ∉ acc.map Prod.fst) →
    decodeStrMapFields acc (m.map (fun p => (p.1, Json.str p.2))) = some (acc ++ m) := by
  induction m with
  | nil => intro acc _ _; simp [decodeStrMapFields]
  | cons p rest ih =>
    intro acc hnd hdisj
    simp only [List.map_cons, List.nodup_cons] at hnd
    have hknotin : p.1 ∉ acc.map Prod.fst := hdisj p.1 (by simp)
    simp only [List.map_cons, decodeStrMapFields]
    rw [aset_eq_append acc p.1 p.2 hknotin]
    rw [ih (acc ++ [(p.1, p.2)]) hnd.2 ?_]
    · simp
    · intro k hk
      simp only [List.map_append, List.mem_append]
      push_neg
      refine ⟨fun hmem => (hdisj k (by simp [hk]) hmem), ?_⟩
      simp only [List.map_cons, List.map_nil, List.mem_singleton]
      intro hkp
      exact hnd.1 (hkp ▸ hk)

theorem decodeStrElems_encode (l : List String) :
    decodeStrElems (l.map Json.str) = some l := by
  induction l with
  | nil => rfl
  | cons s rest ih => simp [decodeStrElems, ih]

theorem decodeChatMemory_encode (c : ChatMemory) :
    decodeChatMemory (encodeChatMemory c) = some c := by
  simp [decodeChatMemory, encodeChatMemory, fieldStr, fieldInt, fieldStrList,
        alookup, decodeStrList, encodeStrList, decodeStrElems_encode]

theorem decodeMemFields_encode (m : List (String × ChatMemory)) :
    ∀ acc : List (String × ChatMemory), (m.map Prod.fst).Nodup →
    (∀ k ∈ m.map Prod.fst, k ∉ acc.map Prod.fst) →
    decodeMemFields acc (m.map (fun p => (p.1, encodeChatMemory p.2))) =
      some (acc ++ m) := by
  induction m with
  | nil => intro acc _ _; simp [decodeMemFields]
  | cons p rest ih =>
    intro acc hnd hdisj
    simp only [List.map_cons, List.nodup_cons] at hnd
    have hknotin : p.1 ∉ acc.map Prod.fst := hdisj p.1 (by simp)
    simp only [List.map_cons, decodeMemFields, decodeChatMemory_encode]
    rw [aset_eq_append acc p.1 p.2 hknotin]
    rw [ih (acc ++ [(p.1, p.2)]) hnd.2 ?_]
    · simp
    · intro k hk
      simp only [List.map_append, List.mem_append]
      push_neg
      refine ⟨fun hmem => (hdisj k (by simp [hk]) hmem), ?_⟩
      simp only [List.map_cons, List.map_nil, List.mem_singleton]
      intro hkp
      exact hnd.1 (hkp ▸ hk)

/-- C7: persistence round-trips — marshalling the thread-state map as
`stateFile` and re-loading it through `loadState`, and marshalling the
chat-memory map as `memoryFile` and re-loading it through `loadMemory`,
both yield a map identical to the one saved (map keys are unique, as Go
maps guarantee). -/
theorem persistence_round_trip :
    (∀ (old m : List (String × String)), (m.map Prod.fst).Nodup →
      loadState old (some (marshalState m)) = m) ∧
    (∀ (old m : List (String × ChatMemory)), (m.map Prod.fst).Nodup →
      loadMemory old (some (marshalMemory m)) = m) := by
  constructor
  · intro old m hnd
    unfold loadState unmarshalStateFile marshalState
    simp only [alookup, if_pos]
    unfold decodeStrMap encodeStrMap
    simp only []
    rw [decodeStrMapFields_encode m [] hnd (by simp)]
    simp
  · intro old m hnd
    unfold loadMemory unmarshalMemoryFile marshalMemory
    simp only [alookup, if_pos]
    rw [decodeMemFields_encode m [] hnd (by simp)]
    simp

/-- C7 witness: a two-entry thread map and a one-entry memory map. -/
theorem persistence_round_trip_w :
    (([("1", "T1"), ("2", "T2")].map
        (Prod.fst (α := String) (β := String))).Nodup ∧
      loadState [] (some (marshalState [("1", "T1"), ("2", "T2")])) =
        [("1", "T1"), ("2", "T2")]) ∧
    (([("1", ({} : ChatMemory))].map Prod.fst).Nodup ∧
      loadMemory [] (some (marshalMemory [("1", ({} : ChatMemory))])) =
        [("1", ({} : ChatMemory))]) :=
  ⟨⟨by decide,
    persistence_round_trip.1 [] [("1", "T1"), ("2", "T2")] (by decide)⟩,
   ⟨by simp,
    persistence_round_trip.2 [] [("1", ({} : ChatMemory))] (by simp)⟩⟩

/-! ## C1 and C5: the usage-accounting hook and the compaction trigger -/

theorem onTurnCompleted_counters (cfg : MemCfg) (a : AdapterState)
    (ck tid : String) (u : CodexUsage) (now : String)
    (hen : cfg.enabled = true) (hck : ck ≠ "") :
    getMem (onTurnCompleted cfg a ck tid u now).1 ck =
      { getMem a ck with
        turnsSinceCompact := (getMem a ck).turnsSinceCompact + 1,
        tokensSinceCompact :=
          (getMem a ck).tokensSinceCompact + u.inputTokens + u.outputTokens,
        updatedAt := now } ∧
    (onTurnCompleted cfg a ck tid u now).1.persistedMem =
      (onTurnCompleted cfg a ck tid u now).1.mem := by
  unfold onTurnCompleted
  rw [if_neg (by simp [hen, hck])]
  simp only []
  split
  · constructor
    · simp [getMem, saveMemoryLocked, alookup_aset_self]
    · simp [saveMemoryLocked]
  · split
    · constructor
      · simp [getMem, saveMemoryLocked, alookup_aset_self]
      · simp [saveMemoryLocked]
    · constructor
      · simp [getMem, saveMemoryLocked, alookup_aset_self]
      · simp [saveMemoryLocked]

/-- C1: in the structured exec variant, a stdout line parsed as a
`turn.completed` record invokes the memory engine's usage-accounting hook
(`onTurnCompleted`) with the token counts taken from the record: the
per-conversation token counter grows by the turn's input plus output tokens,
the turn counter by one, the result is persisted immediately, and the handle
itself is unchanged. -/
theorem turn_completed_usage_accounting (cfg : MemCfg) (h : HandleExec)
    (a : AdapterState) (u : CodexUsage) (now : String)
    (hen : cfg.enabled = true) (hck : h.chatKey ≠ "") :
    (readJSONLStepM cfg now (h, a)
      (.ok { type := "turn.completed", usage := u })).1 = h ∧
    (getMem (readJSONLStepM cfg now (h, a)
      (.ok { type := "turn.completed", usage := u })).2 h.chatKey).tokensSinceCompact =
      (getMem a h.chatKey).tokensSinceCompact + u.inputTokens + u.outputTokens ∧
    (getMem (readJSONLStepM cfg now (h, a)
      (.ok { type := "turn.completed", usage := u })).2 h.chatKey).turnsSinceCompact =
      (getMem a h.chatKey).turnsSinceCompact + 1 ∧
    (readJSONLStepM cfg now (h, a)
      (.ok { type := "turn.completed", usage := u })).2.persistedMem =
      (readJSONLStepM cfg now (h, a)
      (.ok { type := "turn.completed", usage := u })).2.mem := by
  have hc := onTurnCompleted_counters cfg a h.chatKey h.threadID u now hen hck
  have hstep : readJSONLStepM cfg now (h, a)
      (.ok { type := "turn.completed", usage := u }) =
      (h, (onTurnCompleted cfg a h.chatKey h.threadID u now).1) := by
    simp [readJSONLStepM]
  rw [hstep]
  exact ⟨rfl, by rw [hc.1], by rw [hc.1], hc.2⟩

/-- C1 witness: a 100+50-token turn on chat "1" with the engine enabled. -/
theorem turn_completed_usage_accounting_w :
    ((cfg200.enabled = true) ∧ ({ chatKey := "1" } : HandleExec).chatKey ≠ "") ∧
    (getMem (readJSONLStepM cfg200 "t" (({ chatKey := "1" } : HandleExec), {})
      (.ok { type := "turn.completed", usage := usage150 })).2 "1").tokensSinceCompact =
      (getMem {} "1").tokensSinceCompact + usage150.inputTokens + usage150.outputTokens :=
  ⟨⟨rfl, by decide⟩,
   (turn_completed_usage_accounting cfg200 { chatKey := "1" } {} usage150 "t"
      rfl (by decide)).2.1⟩

theorem onTurnCompleted_trigger_iff (cfg : MemCfg) (a : AdapterState)
    (ck tid : String) (u : CodexUsage) (now : String)
    (hen : cfg.enabled = true) (hck : ck ≠ "") (htid : tid ≠ "")
    (hflag : ck ∉ a.compacting) :
    ((onTurnCompleted cfg a ck tid u now).2 = true ↔
      (cfg.tokenThreshold ≤
        (getMem a ck).tokensSinceCompact + u.inputTokens + u.outputTokens ∨
       cfg.turnThreshold ≤ (getMem a ck).turnsSinceCompact + 1)) := by
  unfold onTurnCompleted
  rw [if_neg (by simp [hen, hck])]
  by_cases hneed : (cfg.tokenThreshold ≤
      (getMem a ck).tokensSinceCompact + u.inputTokens + u.outputTokens ∨
      cfg.turnThreshold ≤ (getMem a ck).turnsSinceCompact + 1)
  · rw [if_neg (by rw [not_or, not_not]; exact ⟨hneed, htid⟩)]
    rw [if_neg (by simp [saveMemoryLocked]; exact hflag)]
    simpa using hneed
  · rw [if_pos (by exact Or.inl hneed)]
    simp [hneed]

/-- C5: after each completed turn the token counter grows by input plus
output tokens (see the accounting conjunct of C1's theorem), and a
compaction task is started exactly when the updated token counter reaches
the token threshold (default 60000) or the updated turn counter reaches the
turn threshold (default 40) — given a known thread and no compaction already
in flight for the conversation; in the spec's scenario (threshold 200,
turns of 100+50 tokens) the first turn triggers nothing and the two
following turns trigger exactly once, the third being suppressed by the
per-conversation compacting flag. -/
theorem compaction_trigger_thresholds :
    memoryTokenThreshold none = 60000 ∧
    memoryTurnThreshold none = 40 ∧
    (∀ (cfg : MemCfg) (a : AdapterState) (ck tid : String) (u : CodexUsage)
       (now : String), cfg.enabled = true → ck ≠ "" → tid ≠ "" →
      ck ∉ a.compacting →
      ((onTurnCompleted cfg a ck tid u now).2 = true ↔
        (cfg.tokenThreshold ≤
          (getMem a ck).tokensSinceCompact + u.inputTokens + u.outputTokens ∨
         cfg.turnThreshold ≤ (getMem a ck).turnsSinceCompact + 1))) ∧
    ((onTurnCompleted cfg200 {} "1" "T" usage150 "t1").2 = false ∧
     (onTurnCompleted cfg200
       (onTurnCompleted cfg200 {} "1" "T" usage150 "t1").1
       "1" "T" usage150 "t2").2 = true ∧
     (onTurnCompleted cfg200
       (onTurnCompleted cfg200
         (onTurnCompleted cfg200 {} "1" "T" usage150 "t1").1
         "1" "T" usage150 "t2").1
       "1" "T" usage150 "t3").2 = false) := by
  refine ⟨rfl, rfl, ?_, by decide, by decide, by decide⟩
  intro cfg a ck tid u now hen hck htid hflag
  exact onTurnCompleted_trigger_iff cfg a ck tid u now hen hck htid hflag

/-- C5 witness: the trigger-iff conjunct applied to the scenario's second
turn, whose 300 accumulated tokens pass the 200-token threshold. -/
theorem compaction_trigger_thresholds_w :
    (cfg200.enabled = true ∧ "1" ≠ "" ∧ "T" ≠ "" ∧
      "1" ∉ ((onTurnCompleted cfg200 {} "1" "T" usage150 "t1").1).compacting) ∧
    ((onTurnCompleted cfg200
        (onTurnCompleted cfg200 {} "1" "T" usage150 "t1").1
        "1" "T" usage150 "t2").2 = true ↔
      (cfg200.tokenThreshold ≤
        (getMem (onTurnCompleted cfg200 {} "1" "T" usage150 "t1").1
          "1").tokensSinceCompact + usage150.inputTokens + usage150.outputTokens ∨
       cfg200.turnThreshold ≤
        (getMem (onTurnCompleted cfg200 {} "1" "T" usage150 "t1").1
          "1").turnsSinceCompact + 1)) :=
  ⟨⟨rfl, by decide, by decide, by decide⟩,
   compaction_trigger_thresholds.2.2.1
     cfg200 (onTurnCompleted cfg200 {} "1" "T" usage150 "t1").1
     "1" "T" usage150 "t2" rfl (by decide) (by decide) (by decide)⟩

/-! ## C4: compaction atomicity -/

theorem clearThread_mem (a : AdapterState) (ck : String) :
    (clearThread a ck).mem = a.mem ∧
    (clearThread a ck).persistedMem = a.persistedMem := by
  unfold clearThread
  by_cases hck : ck = ""
  · simp [hck]
  · simp only [hck, if_false]
    cases hx : alookup a.threads ck with
    | none => exact ⟨rfl, rfl⟩
    | some v => simp [saveStateLocked]

/-- C4: compaction is atomic with respect to persisted state — when the
compaction call (`runCodexResumeJSON`) returns an error, `compactChat`
leaves the adapter state (chat memory, continuation identifiers, their
persisted snapshots) exactly as it was; only on success are the counters
reset to zero, the memory replaced and persisted, and the persisted
continuation identifier for the conversation cleared. -/
theorem compaction_atomic :
    (∀ (a : AdapterState) (ck tid : String) (call : CallResult)
       (un : String → Option CompactResult) (now e : String),
      runCodexResumeJSON tid call = .err e →
      compactChat a ck tid call un now =
        (a, some ("compact run failed: " ++ e))) ∧
    (∀ (a : AdapterState) (ck tid text : String)
       (un : String → Option CompactResult) (now : String), tid ≠ "" →
      (a.threads.map Prod.fst).Nodup → a.persistedThreads = a.threads →
      (compactChat a ck tid (.ok text) un now).2 = none ∧
      (getMem (compactChat a ck tid (.ok text) un now).1 ck).tokensSinceCompact = 0 ∧
      (getMem (compactChat a ck tid (.ok text) un now).1 ck).turnsSinceCompact = 0 ∧
      getThread (compactChat a ck tid (.ok text) un now).1 ck = "" ∧
      (compactChat a ck tid (.ok text) un now).1.persistedMem =
        (compactChat a ck tid (.ok text) un now).1.mem ∧
      (compactChat a ck tid (.ok text) un now).1.persistedThreads =
        (compactChat a ck tid (.ok text) un now).1.threads) := by
  constructor
  · intro a ck tid call un now e herr
    unfold compactChat
    rw [herr]
  · intro a ck tid text un now htid hnd hinv
    have hok : runCodexResumeJSON tid (.ok text) = .ok text := by
      unfold runCodexResumeJSON
      rw [if_neg htid]
    unfold compactChat
    rw [hok]
    simp only []
    set res :=
      (match un (extractJSON text) with
       | some r => r
       | none => ({ summary := goTrimSpace text } : CompactResult)) with hres
    set m2 := applyCompact ((alookup a.mem ck).getD {}) res now with hm2
    set a2 : AdapterState :=
      saveMemoryLocked { a with mem := aset a.mem ck m2 } with ha2
    have ha2nd : (a2.threads.map Prod.fst).Nodup := by
      simp [ha2, saveMemoryLocked]; exact hnd
    have ha2inv : a2.persistedThreads = a2.threads := by
      simp [ha2, saveMemoryLocked]; exact hinv
    have hct := clearThread_cleared a2 ck ha2nd ha2inv
    have hcm := clearThread_mem a2 ck
    refine ⟨trivial, ?_, ?_, ?_, ?_, ?_⟩
    · show (getMem (dropThread a2 ck) ck).tokensSinceCompact = 0
      unfold dropThread
      unfold getMem
      rw [hcm.1]
      simp [ha2, saveMemoryLocked, alookup_aset_self, hm2, applyCompact]
    · show (getMem (dropThread a2 ck) ck).turnsSinceCompact = 0
      unfold dropThread
      unfold getMem
      rw [hcm.1]
      simp [ha2, saveMemoryLocked, alookup_aset_self, hm2, applyCompact]
    · exact hct.1
    · show (dropThread a2 ck).persistedMem = (dropThread a2 ck).mem
      unfold dropThread
      rw [hcm.1, hcm.2]
      simp [ha2, saveMemoryLocked]
    · exact hct.2

/-- C4 witness: an error run (empty continuation identifier) leaves the
default state untouched, and a successful run on thread "T" resets the
counters. -/
theorem compaction_atomic_w :
    (runCodexResumeJSON "" (.ok "x") = .err "empty threadID" ∧
      compactChat {} "1" "" (.ok "x") (fun _ => none) "t" =
        (({} : AdapterState), some ("compact run failed: " ++ "empty threadID"))) ∧
    (("T" ≠ "" ∧ ((({} : AdapterState).threads.map Prod.fst).Nodup) ∧
       ({} : AdapterState).persistedThreads = ({} : AdapterState).threads) ∧
      (getMem (compactChat {} "1" "T" (.ok "x") (fun _ => none) "t").1
        "1").tokensSinceCompact = 0) :=
  ⟨⟨by decide,
    compaction_atomic.1 {} "1" "" (.ok "x") (fun _ => none) "t" "empty threadID"
      (by decide)⟩,
   ⟨⟨by decide, by decide, rfl⟩,
    (compaction_atomic.2 {} "1" "T" "x" (fun _ => none) "t" (by decide)
      (by decide) rfl).2.1⟩⟩

end MyBot
